import Mathlib

/-!
Verification development for the TimerResBenchmark sweep engine
(`src/main.rs`).  The program's `f64` arithmetic is embedded as exact
rational arithmetic together with an explicit round-to-nearest-even
step (`roundF`) on every operation, modelling IEEE-754 binary64 in its
normal range (subnormal underflow and overflow to infinity do not occur
at the magnitudes the program manipulates).
-/

set_option maxRecDepth 8000

attribute [local semireducible] Rat.add Rat.sub Rat.mul Rat.inv Rat.ofScientific

namespace TRB

/-- Round-half-to-even of a rational to an integer (the rounding used by
IEEE-754 round-to-nearest and by Rust's fixed-precision float formatting). -/
def rnEven (m : ℚ) : ℤ :=
  if m - (⌊m⌋ : ℚ) < 1/2 then ⌊m⌋
  else if 1/2 < m - (⌊m⌋ : ℚ) then ⌊m⌋ + 1
  else if ⌊m⌋ % 2 = 0 then ⌊m⌋ else ⌊m⌋ + 1

/-- Computes `⌊log₂ n⌋` by halving, with explicit fuel so that the kernel can
evaluate it (fuel `n` always suffices, since the argument halves on
every step). -/
def log2fuel : ℕ → ℕ → ℕ
  | 0, _ => 0
  | fuel + 1, n => if n ≤ 1 then 0 else log2fuel fuel (n / 2) + 1

/-- The value `⌊log₂ n⌋` for `n ≥ 1`. -/
def log2N (n : ℕ) : ℕ := log2fuel n n

/-- The power `2 ^ z` as a rational, for an integer `z`. -/
def qpow2 (z : ℤ) : ℚ :=
  if 0 ≤ z then ((2 ^ z.toNat : ℕ) : ℚ) else ((2 ^ (-z).toNat : ℕ) : ℚ)⁻¹

/-- The exponent `⌊log₂ x⌋` for a positive rational `x = a/b`: from
`2^⌊log₂ a⌋ ≤ a < 2^(⌊log₂ a⌋+1)` (same for `b`), the result is
`⌊log₂ a⌋ - ⌊log₂ b⌋` or one less, settled by one comparison. -/
def ratLog2 (x : ℚ) : ℤ :=
  let e0 : ℤ := (log2N x.num.toNat : ℤ) - (log2N x.den : ℤ)
  if qpow2 e0 ≤ x then e0 else e0 - 1

/-- Round a real (rational) value to the nearest IEEE-754 binary64 value
(53-bit significand, round-to-nearest, ties to even), expressed as the
exact rational the double denotes.  `ratLog2 |x|` is the binade exponent
`e` with `2^e ≤ |x| < 2^(e+1)`, so the representable doubles around `x`
are the multiples of `2^(e-52)`. -/
def roundF (x : ℚ) : ℚ :=
  if x = 0 then 0
  else
    let g : ℚ := qpow2 (ratLog2 |x| - 52)
    (rnEven (x / g) : ℚ) * g

/-- The binary64 value denoted by a decimal literal (e.g. `dbl (1/10)` is
the double written `0.1` in the Rust source / JSON config). -/
def dbl (q : ℚ) : ℚ := roundF q

/-- binary64 addition (`+` on `f64`): exact sum, then one rounding. -/
def fadd (x y : ℚ) : ℚ := roundF (x + y)

/-- binary64 multiplication (`*` on `f64`). -/
def fmul (x y : ℚ) : ℚ := roundF (x * y)

/-- binary64 division (`/` on `f64`). -/
def fdiv (x y : ℚ) : ℚ := roundF (x / y)

/-- Rust `f64::round`: round half away from zero to an integral double. -/
def rustRound (x : ℚ) : ℚ :=
  roundF ((if x < 0 then -⌊-x + 1/2⌋ else ⌊x + 1/2⌋ : ℤ) : ℚ)

/-- Rust `as i32` on an `f64`: truncate toward zero, saturating at the
`i32` bounds. -/
def i32cast (x : ℚ) : ℤ :=
  if x < -2147483648 then -2147483648
  else if 2147483647 < x then 2147483647
  else if x < 0 then ⌈x⌉ else ⌊x⌋

/-- From main.rs:235: the integer resolution argument passed to
`SetTimerResolution.exe` for a given loop cursor, i.e.
`((current * 10_000.0).round() / 10_000.0 * 10_000.0) as i32`. -/
def resolutionOf (current : ℚ) : ℤ :=
  i32cast (fmul (fdiv (rustRound (fmul current 10000)) 10000) 10000)

/-!
## Measurement parser (`parse_measurement_output`, main.rs:535-555)

Lines of process output are embedded as lists of characters.  Numeric
text is decoded to the exact rational a plain decimal string denotes;
Rust's `str::parse::<f64>` additionally accepts exponent/inf/nan forms
(never produced by the outputs considered here) and ends with a final
rounding to binary64, which affects none of the zero tests, comparisons
or 4-decimal agreements proved below.
-/

/-- A line of text, as a list of characters. -/
abbrev Line := List Char

/-- A decimal digit character to its value. -/
def digit? (c : Char) : Option ℕ :=
  if 48 ≤ c.toNat ∧ c.toNat ≤ 57 then some (c.toNat - 48) else none

/-- One step of the digit-string fold. -/
def dvStep (acc : Option ℕ) (c : Char) : Option ℕ :=
  match acc, digit? c with
  | some a, some d => some (a * 10 + d)
  | _, _ => none

/-- Fold a digit string to its value; fails on any non-digit. -/
def digitsVal? (cs : List Char) : Option ℕ :=
  cs.foldl dvStep (some 0)

/-- Unsigned decimal parse: `digits`, `digits.digits`, `digits.` or
`.digits` (the integer part is the text up to the first `'.'`). -/
def parseUF (t : Line) : Option ℚ :=
  match t.dropWhile (fun c => c != '.') with
  | [] =>
    if t.takeWhile (fun c => c != '.') = [] then none
    else (digitsVal? (t.takeWhile (fun c => c != '.'))).map (fun n => (n : ℚ))
  | _ :: fr =>
    if t.takeWhile (fun c => c != '.') = [] ∧ fr = [] then none
    else
      match digitsVal? (t.takeWhile (fun c => c != '.')), digitsVal? fr with
      | some n, some f => some ((n : ℚ) + (f : ℚ) / (10 : ℚ) ^ fr.length)
      | _, _ => none

/-- Decimal parse with optional sign (model of `str::parse::<f64>` on
the plain decimal forms that occur; see the section comment). -/
def parseF64? (s : Line) : Option ℚ :=
  match s with
  | [] => none
  | c :: rest =>
    if c = '-' then (parseUF rest).map (fun v => -v)
    else if c = '+' then parseUF rest
    else parseUF s

/-- The label `"Avg: "` (5 characters). -/
def pAvg : Line := ['A', 'v', 'g', ':', ' ']

/-- The label `"STDEV: "` (7 characters). -/
def pStd : Line := ['S', 'T', 'D', 'E', 'V', ':', ' ']

/-- One iteration of the scanning loop (main.rs:542-547): the first
`Avg: `-prefixed line while `avg` is unset fills `avg` from `line[5..]`;
otherwise the first `STDEV: `-prefixed line while `stdev` is unset fills
`stdev` from `line[7..]`. -/
def pmStep (avg stdev : Option ℚ) (l : Line) : Option ℚ × Option ℚ :=
  if avg = none ∧ pAvg.isPrefixOf l then (parseF64? (l.drop 5), stdev)
  else if stdev = none ∧ pStd.isPrefixOf l then (avg, parseF64? (l.drop 7))
  else (avg, stdev)

/-- The scanning loop with its early break once both fields are set, and
the final `avg.zip(stdev)` (main.rs:542-554). -/
def pmGo : List Line → Option ℚ → Option ℚ → Option (ℚ × ℚ)
  | [], avg, stdev =>
    match avg, stdev with
    | some a, some s => some (a, s)
    | _, _ => none
  | l :: rest, avg, stdev =>
    match pmStep avg stdev l with
    | (some a, some s) => some (a, s)
    | (a, s) => pmGo rest a s

/-- The function `parse_measurement_output` (main.rs:535-555) on already-decoded
lines; `none` is the `InvalidData` ("missing field") error. -/
def parse_measurement_output (lines : List Line) : Option (ℚ × ℚ) :=
  pmGo lines none none

/-!
## Optimal-resolution reducer (main.rs:298-318)
-/

/-- The constant `f64::MAX = (2^53 - 1) * 2^971`, the seed of `min_delta` and
`min_std` (main.rs:300-301). -/
def fMAX : ℚ := ((2 ^ 1024 - 2 ^ 971 : ℕ) : ℚ)

/-- Strict lexicographic order on `(delta, stdev)` pairs: exactly the
replacement condition `delta < min_delta || (delta == min_delta && std <
min_std)` of main.rs:312. -/
def lexLt (a b : ℚ × ℚ) : Prop := a.1 < b.1 ∨ (a.1 = b.1 ∧ a.2 < b.2)

instance lexLt.instDecidable (a b : ℚ × ℚ) : Decidable (lexLt a b) := by
  unfold lexLt; infer_instance

/-- One iteration of the reduction loop (main.rs:310-316) over the state
`(optimal_resolution, min_delta, min_std)`: replace the running best
exactly when `delta < min_delta || (delta == min_delta && std <
min_std)` — which is `lexLt (delta, std) (min_delta, min_std)` by
definition of `lexLt`. -/
def reduceStep (acc : Option ℚ × ℚ × ℚ) (r : ℚ × ℚ × ℚ) : Option ℚ × ℚ × ℚ :=
  if lexLt r.2 acc.2 then (some r.1, r.2.1, r.2.2) else acc

/-- The reduction over all parsed records, seeded with
`(None, f64::MAX, f64::MAX)` (main.rs:299-301), returning
`optimal_resolution`. -/
def reduce (records : List (ℚ × ℚ × ℚ)) : Option ℚ :=
  (records.foldl reduceStep (none, fMAX, fMAX)).1

/-- The error message of main.rs:324. -/
def msgNoValid : Line := "No valid data found in results.txt".toList

/-- main.rs:320-325: a `Some` optimal resolution is reported, `None`
aborts with the distinct `InvalidData` error (a non-zero process
outcome). -/
def finalizeResult (records : List (ℚ × ℚ × ℚ)) : Except Line ℚ :=
  match reduce records with
  | some r => Except.ok r
  | none => Except.error msgNoValid

/-- The spec's choice rule, written as the spec words it: keep the
earlier record unless a later one is strictly lexicographically smaller
on `(delta, stdev)` (so the earliest record wins ties on both fields). -/
def best2 (a b : ℚ × ℚ × ℚ) : ℚ × ℚ × ℚ := if lexLt b.2 a.2 then b else a

/-- Spec-side reduction: the first lexicographically-minimal record of
the sequence (`none` on the empty sequence). -/
def specBest : List (ℚ × ℚ × ℚ) → Option (ℚ × ℚ × ℚ)
  | [] => none
  | r :: rs =>
    some (match specBest rs with
          | none => r
          | some b => best2 r b)

/-!
## Results store (main.rs:213-215, 268-274, 293-318)

A row of the results file is the three fields of a record, each
formatted with `{:.4}` (fixed four decimals, ties to even); `read_all`
re-parses each well-formed row as floats and skips malformed rows.  The
comma framing handled by the csv crate is embedded structurally: a row
is the list of its fields.
-/

/-- The character of a decimal digit. -/
def digitChar (d : ℕ) : Char := Char.ofNat (48 + d)

/-- The digit string of a natural number (most significant first). -/
def natStr (k : ℕ) : Line :=
  if k = 0 then ['0'] else ((Nat.digits 10 k).reverse.map digitChar)

/-- The value of a digit list read most-significant-first, continuing
from `a` (how `digitsVal?` accumulates). -/
def valList (a : ℕ) (ds : List ℕ) : ℕ :=
  ds.foldl (fun x d => x * 10 + d) a

/-- A fraction below 10000 padded to exactly four digits. -/
def pad4 (r : ℕ) : Line :=
  [digitChar (r / 1000 % 10), digitChar (r / 100 % 10),
   digitChar (r / 10 % 10), digitChar (r % 10)]

/-- Rust `{:.4}` fixed formatting of a (finite) float value: the exact
value rounded to four decimals, ties to even, printed with a sign for
negative values. -/
def fmt4 (q : ℚ) : Line :=
  (if q < 0 then ['-'] else []) ++
    natStr ((rnEven (q * 10000)).natAbs / 10000) ++
    '.' :: pad4 ((rnEven (q * 10000)).natAbs % 10000)

/-- The value `{:.4}` formatting denotes: `q` rounded to 4 decimals. -/
def r4 (q : ℚ) : ℚ := (rnEven (q * 10000) : ℚ) / 10000

/-- One written row `"{:.4},{:.4},{:.4}"` (main.rs:269), as its fields. -/
def writeRow (r : ℚ × ℚ × ℚ) : List Line := [fmt4 r.1, fmt4 r.2.1, fmt4 r.2.2]

/-- The rows appended over a sweep, in insertion order. -/
def write_all (recs : List (ℚ × ℚ × ℚ)) : List (List Line) := recs.map writeRow

/-- main.rs:303-309: a row parses if its first three fields parse as
floats. -/
def readRow (row : List Line) : Option (ℚ × ℚ × ℚ) :=
  match row with
  | a :: b :: c :: _ =>
    match parseF64? a, parseF64? b, parseF64? c with
    | some x, some y, some z => some (x, y, z)
    | _, _, _ => none
  | _ => none

/-- Reading the store back: parse every row, silently skipping malformed
ones (`filter_map(|r| r.ok())` and the `if let` of main.rs:303-308). -/
def read_all (rows : List (List Line)) : List (ℚ × ℚ × ℚ) :=
  rows.filterMap readRow

/-!
## Sweep driver (main.rs:218, 234-282)

The two external executables are oracles: a `RoundEnv` gives, per round,
the spawn outcome of `SetTimerResolution.exe` and the captured output of
`MeasureSleep.exe` (`none` = launch/capture failure).  The `?` operators
at main.rs:261 and main.rs:266 return from `main` at once, so on those
paths `kill_process` (main.rs:275) is not reached; `killRan` records
whether it was.
-/

/-- Configuration record (main.rs:24-34), fields as binary64 values. -/
structure BenchmarkingParameters where
  start_value : ℚ
  increment_value : ℚ
  end_value : ℚ
  sample_value : ℤ
deriving DecidableEq

/-- The per-round behaviour of the external processes. -/
structure RoundEnv where
  spawnOk : Bool
  measureOut : Option (List Line)

/-- The two in-loop fatal errors. -/
inductive FatalErr where
  | measureFailed
  | parseFailed
deriving DecidableEq

/-- What one loop iteration did. -/
structure RoundOutcome where
  resolution : ℤ
  fatal : Option FatalErr
  appended : Option (ℚ × ℚ × ℚ)
  killRan : Bool
deriving DecidableEq

/-- One iteration of the `while` body (main.rs:234-277): compute the
resolution, spawn the setter (its failure only logged, main.rs:247-249),
run the sampler, parse, append when both fields are non-zero
(main.rs:268-272), then kill the setter (main.rs:275).  A sampler or
parse failure returns early: no append, no kill. -/
def runRound (current : ℚ) (env : RoundEnv) : RoundOutcome :=
  let res := resolutionOf current
  match env.measureOut with
  | none => ⟨res, some FatalErr.measureFailed, none, false⟩
  | some out =>
    match parse_measurement_output out with
    | none => ⟨res, some FatalErr.parseFailed, none, false⟩
    | some (avg, stdev) =>
      ⟨res, none,
       if avg ≠ 0 ∧ stdev ≠ 0 then some (current, avg, stdev) else none,
       true⟩

/-- Observable outcome of the whole loop: the resolutions attempted (in
order), the records appended to the store, how many rounds ran the
cleanup, the fatal error that aborted the loop (if any), and whether the
modelling fuel ran out with the loop still live. -/
structure SweepResult where
  resolutions : List ℤ
  records : List (ℚ × ℚ × ℚ)
  killCount : ℕ
  exitKind : Option FatalErr
  fuelOut : Bool
deriving DecidableEq

/-- The `while current <= parameters.end_value` loop (main.rs:234-282),
with the cursor advanced by `current += parameters.increment_value` in
binary64.  `fuel` bounds the number of iterations unrolled; `fuelOut =
true` means the loop was still live when fuel ran out. -/
def sweepGo (p : BenchmarkingParameters) (envs : ℕ → RoundEnv) :
    ℕ → ℚ → ℕ → SweepResult
  | 0, current, _ =>
    if current ≤ p.end_value then ⟨[], [], 0, none, true⟩
    else ⟨[], [], 0, none, false⟩
  | fuel + 1, current, k =>
    if current ≤ p.end_value then
      let o := runRound current (envs k)
      match o.fatal with
      | some e => ⟨[o.resolution], o.appended.toList,
                   if o.killRan then 1 else 0, some e, false⟩
      | none =>
        let rest := sweepGo p envs fuel (fadd current p.increment_value) (k + 1)
        ⟨o.resolution :: rest.resolutions, o.appended.toList ++ rest.records,
         (if o.killRan then 1 else 0) + rest.killCount,
         rest.exitKind, rest.fuelOut⟩
    else ⟨[], [], 0, none, false⟩

/-- The sweep from `current = parameters.start_value` (main.rs:218). -/
def sweep (fuel : ℕ) (p : BenchmarkingParameters) (envs : ℕ → RoundEnv) :
    SweepResult :=
  sweepGo p envs fuel p.start_value 0

/-!
## Configuration loading and the interactive prompt
(main.rs:24-58, 126-151)
-/

/-- Rust `str::parse::<i32>`: optional sign, digits, `i32` range. -/
def parseI32? (s : Line) : Option ℤ :=
  let signed : ℤ × Line :=
    match s with
    | '-' :: rest => (-1, rest)
    | '+' :: rest => (1, rest)
    | _ => (1, s)
  match signed with
  | (sgn, ds) =>
    if ds = [] then none
    else
      (digitsVal? ds).bind fun n =>
        let v := sgn * n
        if -2147483648 ≤ v ∧ v ≤ 2147483647 then some v else none

/-- Deserializing `appsettings.json` (main.rs:122-124): each of the four
fields passes through `validate_positive_f64` / `validate_positive_i32`
(main.rs:36-58), which reject any non-positive value. -/
def parseConfig (s i e : ℚ) (n : ℤ) : Option BenchmarkingParameters :=
  if 0 < dbl s ∧ 0 < dbl i ∧ 0 < dbl e ∧ 0 < n then
    some ⟨dbl s, dbl i, dbl e, n⟩
  else none

/-- The interactive override (main.rs:140-151): a non-empty input line
replaces the field after a plain numeric parse — with no positivity
re-check; a parse failure aborts (`InvalidInput`). -/
def applyPrompt (p : BenchmarkingParameters)
    (si ii ei ni : Option Line) : Option BenchmarkingParameters := do
  let s ← match si with
    | none => some p.start_value
    | some l => (parseF64? l).map dbl
  let i ← match ii with
    | none => some p.increment_value
    | some l => (parseF64? l).map dbl
  let e ← match ei with
    | none => some p.end_value
    | some l => (parseF64? l).map dbl
  let n ← match ni with
    | none => some p.sample_value
    | some l => parseI32? l
  some ⟨s, i, e, n⟩

/-!
## Concrete scenario data
-/

/-- The spec scenario `{start: 0.5, increment: 0.1, end: 0.7, samples: 100}`. -/
def pScenario : BenchmarkingParameters :=
  ⟨dbl (1/2), dbl (1/10), dbl (7/10), 100⟩

/-- Parameters `{start: 0.1, increment: 0.1, end: 0.3, samples: 100}`:
the span `0.3 - 0.1` is exactly twice the increment, yet the binary64
cursor overshoots `end` after two rounds. -/
def pSkip : BenchmarkingParameters :=
  ⟨dbl (1/10), dbl (1/10), dbl (3/10), 100⟩

/-- A healthy sampler output. -/
def goodOut : List Line := ["Avg: 1.0000".toList, "STDEV: 0.1000".toList]

/-- A degenerate sampler output (zero mean). -/
def degenOut : List Line := ["Avg: 0.0000".toList, "STDEV: 0.1000".toList]

/-- A sampler output missing its `STDEV:` line. -/
def lAvgOnly : Line := "Avg: 3.1400".toList

/-- Environment: every round behaves. -/
def envAllOk : ℕ → RoundEnv := fun _ => ⟨true, some goodOut⟩

/-- Environment: the sampler fails to launch on every round. -/
def envMeasureFail : ℕ → RoundEnv := fun _ => ⟨true, none⟩

/-- Environment: round 0 behaves, every later round's output lacks the
`STDEV:` line. -/
def envMissing1 : ℕ → RoundEnv :=
  fun k => if k = 0 then ⟨true, some goodOut⟩ else ⟨true, some [lAvgOnly]⟩

/-- Environment: round 0 returns a degenerate (zero-mean) sample, later
rounds behave. -/
def envDegen0 : ℕ → RoundEnv :=
  fun k => if k = 0 then ⟨true, some degenOut⟩ else ⟨true, some goodOut⟩

/-- The input line `"0"`, typed at the increment prompt. -/
def lZero : Line := ['0']

/-- The first line of text beginning with the given label. -/
def firstWith (p : Line) (lines : List Line) : Option Line :=
  lines.find? (fun l => p.isPrefixOf l)

/-- The line `"Avg: 3.1400"`. -/
def lAvg314 : Line := "Avg: 3.1400".toList

/-- The line `"STDEV: 0.2200"`. -/
def lStd22 : Line := "STDEV: 0.2200".toList

/-- The line `"Avg: 9.0"`. -/
def lAvg9 : Line := "Avg: 9.0".toList

/-- An output that contains `"Avg: 3.1400"` and `"STDEV: 0.2200"` but
whose *first* mean-prefixed line is `"Avg: 9.0"`. -/
def cexLines : List Line := [lAvg9, lAvg314, lStd22]

/-- The scenario parameters after the interactive edit that replaces the
increment by `0`. -/
def pZero : BenchmarkingParameters := ⟨dbl (1/2), 0, dbl (7/10), 100⟩

/-!
## Claims
-/

/-- C1, counterexample.  The parameters `{start: 0.1, increment: 0.1,
end: 0.3}` have a span that is exactly twice the increment, yet the
sweep loop exits normally after attempting only the two rounds 0.1 ms
and 0.2 ms (resolutions 1000 and 2000): the final resolution point at
`end` (0.3 ms, resolution 3000) is never evaluated, because the
binary64 cursor `0.1 + 0.1 + 0.1 = 0.30000000000000004` overshoots
`end = 0.29999999999999999`. -/
theorem c1_counterexample :
    (3 : ℚ)/10 - 1/10 = 2 * (1/10) ∧
    (sweep 10 pSkip envAllOk).resolutions = [1000, 2000] ∧
    (sweep 10 pSkip envAllOk).exitKind = none ∧
    (sweep 10 pSkip envAllOk).fuelOut = false := by
  refine ⟨by norm_num, by decide, by decide, by decide⟩

/-- C1, amended.  For `{start: 0.5, increment: 0.1, end: 0.7}` the loop
does attempt exactly 3 rounds, at resolutions 0.5, 0.6 and 0.7 ms
(integer arguments 5000, 6000, 7000), and exits normally; but the
value-driven inclusive bound does not in general survive floating-point
accumulation: for `{start: 0.1, increment: 0.1, end: 0.3}` only 2 rounds
are attempted and the final point at `end` is skipped. -/
theorem c1_theorem :
    (sweep 10 pScenario envAllOk).resolutions = [5000, 6000, 7000] ∧
    (sweep 10 pScenario envAllOk).exitKind = none ∧
    (sweep 10 pScenario envAllOk).fuelOut = false ∧
    (sweep 10 pSkip envAllOk).resolutions = [1000, 2000] ∧
    (sweep 10 pSkip envAllOk).exitKind = none := by
  refine ⟨by decide, by decide, by decide, by decide, by decide⟩

/-- C3, counterexample.  A round whose sampler launch/capture fails (the
in-loop fatal error of main.rs:254-261) aborts the sweep *without*
executing the cleanup: the round ran (resolution 5000 was attempted),
the exit is the measurement failure, and `kill_process` was executed
zero times — the `?` at main.rs:261 returns from `main` before
main.rs:275 is reached. -/
theorem c3_counterexample :
    (sweep 10 pScenario envMeasureFail).resolutions = [5000] ∧
    (sweep 10 pScenario envMeasureFail).exitKind =
      some FatalErr.measureFailed ∧
    (sweep 10 pScenario envMeasureFail).killCount = 0 := by
  refine ⟨by decide, by decide, by decide⟩

/-- C3, amended.  The cleanup that kills `SetTimerResolution.exe` by
name runs on exactly the rounds that reach main.rs:275, i.e. the rounds
on which sampler capture and parse both succeed (including
degenerate-sample rounds); on an in-loop fatal error the function
returns without running the cleanup for the in-flight round. -/
theorem c3_theorem (current : ℚ) (env : RoundEnv) :
    (runRound current env).killRan = true ↔
      (runRound current env).fatal = none := by
  rcases hm : env.measureOut with _ | out
  · simp [runRound, hm]
  · rcases hp : parse_measurement_output out with _ | ⟨a, s⟩
    · simp [runRound, hm, hp]
    · simp [runRound, hm, hp]

/-- C7, counterexample.  For the cursor value `current = 1.0009` (as a
binary64 value, e.g. typed directly at the start-value prompt), the
program passes the integer 10008 to the resolution setter, while
`round(current * 10000)` — under either reading: `f64::round` of the
f64 product, or the cursor rounded to 4 decimal digits and then scaled
by 10000 — is 10009: the trailing `/ 10_000.0 * 10_000.0` round-trip of
main.rs:235 lands just below 10009 and the `as i32` truncation drops it
to 10008. -/
theorem c7_counterexample :
    resolutionOf (dbl (10009/10000)) = 10008 ∧
    rustRound (fmul (dbl (10009/10000)) 10000) = 10009 ∧
    r4 (dbl (10009/10000)) * 10000 = 10009 := by
  refine ⟨by decide, by decide, by decide⟩

/-- C7, amended.  The integer passed equals
`round(current * 10000)` for the cursor values of the scenario sweep
(0.5, 0.6 and 0.7 ms give 5000, 6000 and 7000, with the accumulated
cursors equal to the binary64 literals), but not for every cursor: the
divide-multiply round-trip truncated by `as i32` passes 10008 for the
cursor 1.0009 whose rounded scaling is 10009. -/
theorem c7_theorem :
    resolutionOf (dbl (1/2)) = 5000 ∧
    rustRound (fmul (dbl (1/2)) 10000) = 5000 ∧
    fadd (dbl (1/2)) (dbl (1/10)) = dbl (3/5) ∧
    resolutionOf (dbl (3/5)) = 6000 ∧
    rustRound (fmul (dbl (3/5)) 10000) = 6000 ∧
    fadd (dbl (3/5)) (dbl (1/10)) = dbl (7/10) ∧
    resolutionOf (dbl (7/10)) = 7000 ∧
    rustRound (fmul (dbl (7/10)) 10000) = 7000 ∧
    resolutionOf (dbl (10009/10000)) = 10008 ∧
    rustRound (fmul (dbl (10009/10000)) 10000) = 10009 := by
  refine ⟨by decide, by decide, by decide, by decide, by decide,
    by decide, by decide, by decide, by decide, by decide⟩

/-- Helper for C5: while `stdev` is unset, scanning lines none of which
carries the `STDEV: ` label can never set it, so the final
`avg.zip(stdev)` fails. -/
theorem pmGo_no_std (lines : List Line) : ∀ a : Option ℚ,
    (∀ l ∈ lines, pStd.isPrefixOf l = false) → pmGo lines a none = none := by
  induction lines with
  | nil => intro a _; cases a <;> rfl
  | cons l t IH =>
    intro a h
    have hstd : pStd.isPrefixOf l = false := h l (List.mem_cons_self l t)
    have ht : ∀ x ∈ t, pStd.isPrefixOf x = false :=
      fun x hx => h x (List.mem_cons_of_mem l hx)
    rcases a with _ | v
    · by_cases hpa : (pAvg.isPrefixOf l : Prop)
      · rcases hp : parseF64? (l.drop 5) with _ | w
        · simpa [pmGo, pmStep, hpa, hstd, hp] using IH none ht
        · simpa [pmGo, pmStep, hpa, hstd, hp] using IH (some w) ht
      · simpa [pmGo, pmStep, hpa, hstd] using IH none ht
    · simpa [pmGo, pmStep, hstd] using IH (some v) ht

/-- C5.  (i) If no line of the sampler output starts with the `STDEV: `
label, `parse_measurement_output` fails with the missing-field
(`InvalidData`) error after scanning all lines.  (ii) That error is
fatal to the sweep (the `?` at main.rs:266): with round 0 healthy and
round 1's output lacking its `STDEV:` line, the sweep aborts with the
parse failure having attempted exactly rounds 0 and 1 (resolutions 5000
and 6000) — zero additional rounds follow the failing one — and only
round 0's record was stored. -/
theorem c5_theorem :
    (∀ lines, (∀ l ∈ lines, pStd.isPrefixOf l = false) →
      parse_measurement_output lines = none) ∧
    (sweep 10 pScenario envMissing1).exitKind = some FatalErr.parseFailed ∧
    (sweep 10 pScenario envMissing1).resolutions = [5000, 6000] ∧
    (sweep 10 pScenario envMissing1).records = [(dbl (1/2), 1, 1/10)] ∧
    (sweep 10 pScenario envMissing1).fuelOut = false :=
  ⟨fun lines h => pmGo_no_std lines none h,
    by decide, by decide, by decide, by decide⟩

/-- Witness for C5 at the concrete output `["Avg: 3.1400"]`. -/
theorem c5_witness :
    (∀ l ∈ [lAvgOnly], pStd.isPrefixOf l = false) ∧
    parse_measurement_output [lAvgOnly] = none :=
  ⟨by decide, c5_theorem.1 [lAvgOnly] (by decide)⟩

/-- C8.  (i) On any round whose output parses to `(a, s)`, the round is
non-fatal (the loop advances to the next resolution value), the cleanup
runs, and a record is appended if and only if both fields are non-zero
(main.rs:268-272); (ii) concretely, a sweep whose round 0 returns a
zero-mean sample still completes all three scenario rounds, storing
only the two non-degenerate records. -/
theorem c8_theorem :
    (∀ (current : ℚ) (b : Bool) (out : List Line) (a s : ℚ),
      parse_measurement_output out = some (a, s) →
        (runRound current ⟨b, some out⟩).fatal = none ∧
        (runRound current ⟨b, some out⟩).killRan = true ∧
        ((runRound current ⟨b, some out⟩).appended = some (current, a, s) ↔
          (a ≠ 0 ∧ s ≠ 0))) ∧
    (sweep 10 pScenario envDegen0).exitKind = none ∧
    (sweep 10 pScenario envDegen0).fuelOut = false ∧
    (sweep 10 pScenario envDegen0).resolutions = [5000, 6000, 7000] ∧
    (sweep 10 pScenario envDegen0).records =
      [(dbl (3/5), 1, 1/10), (dbl (7/10), 1, 1/10)] := by
  refine ⟨fun current b out a s hp => ?_, by decide, by decide, by decide, by decide⟩
  refine ⟨by simp [runRound, hp], by simp [runRound, hp], ?_⟩
  by_cases h : a ≠ 0 ∧ s ≠ 0
  · simp [runRound, hp, h]
  · simp only [runRound, hp, if_neg h]
    simpa using h

/-- Witness for C8 at the degenerate concrete output
`["Avg: 0.0000", "STDEV: 0.1000"]`: the round is non-fatal, the cleanup
runs, and nothing is appended because the mean is zero. -/
theorem c8_witness :
    parse_measurement_output degenOut = some (0, 1/10) ∧
    (runRound (1/2) ⟨true, some degenOut⟩).fatal = none ∧
    (runRound (1/2) ⟨true, some degenOut⟩).killRan = true ∧
    ((runRound (1/2) ⟨true, some degenOut⟩).appended = some (1/2, 0, 1/10) ↔
      ((0 : ℚ) ≠ 0 ∧ (1/10 : ℚ) ≠ 0)) :=
  ⟨by decide, c8_theorem.1 (1/2) true degenOut 0 (1/10) (by decide)⟩

/-- Helper for C6: the `optimal_resolution` produced by the reduction
loop is either the seed's (`None`) or the resolution of one of the
records scanned. -/
theorem reduce_foldl_mem (l : List (ℚ × ℚ × ℚ)) :
    ∀ acc : Option ℚ × ℚ × ℚ,
      (l.foldl reduceStep acc).1 = acc.1 ∨
        ∃ r ∈ l, (l.foldl reduceStep acc).1 = some r.1 := by
  induction l with
  | nil => intro acc; exact Or.inl rfl
  | cons r t IH =>
    intro acc
    rw [List.foldl_cons]
    rcases IH (reduceStep acc r) with h | ⟨x, hx, hex⟩
    · by_cases hc : lexLt r.2 acc.2
      · right
        exact ⟨r, List.mem_cons_self r t, by rw [h]; simp [reduceStep, hc]⟩
      · left
        rw [h]; simp [reduceStep, hc]
    · right
      exact ⟨x, List.mem_cons_of_mem r hx, hex⟩

/-- The order `lexLt` is transitive. -/
theorem lexLt_trans {a b c : ℚ × ℚ} (h1 : lexLt a b) (h2 : lexLt b c) :
    lexLt a c := by
  rcases h1 with h1 | ⟨e1, h1⟩ <;> rcases h2 with h2 | ⟨e2, h2⟩
  · exact Or.inl (lt_trans h1 h2)
  · exact Or.inl (e2 ▸ h1)
  · exact Or.inl (by rw [e1]; exact h2)
  · exact Or.inr ⟨e1.trans e2, lt_trans h1 h2⟩

/-- The order `lexLt` is irreflexive. -/
theorem lexLt_irrefl {a : ℚ × ℚ} : ¬ lexLt a a := by
  rintro (h | ⟨-, h⟩) <;> exact lt_irrefl _ h

/-- From `a ≤lex b` (as `¬ b <lex a`) and `b <lex c`, conclude `a <lex c`. -/
theorem lexLt_of_not_of_lt {a b c : ℚ × ℚ} (hn : ¬ lexLt b a)
    (h : lexLt b c) : lexLt a c := by
  have hab : a.1 ≤ b.1 := not_lt.mp (fun hh => hn (Or.inl hh))
  rcases h with h | ⟨e, h⟩
  · exact Or.inl (lt_of_le_of_lt hab h)
  · rcases lt_or_eq_of_le hab with hlt | heq
    · exact Or.inl (e ▸ hlt)
    · have h2 : a.2 ≤ b.2 := not_lt.mp (fun hh => hn (Or.inr ⟨heq.symm, hh⟩))
      exact Or.inr ⟨heq.trans e, lt_of_le_of_lt h2 h⟩

/-- From `a <lex b` and `b ≤lex c` (as `¬ c <lex b`), conclude `a <lex c`. -/
theorem lexLt_of_lt_of_not {a b c : ℚ × ℚ} (h : lexLt a b)
    (hn : ¬ lexLt c b) : lexLt a c := by
  have hbc : b.1 ≤ c.1 := not_lt.mp (fun hh => hn (Or.inl hh))
  rcases h with h | ⟨e, h⟩
  · exact Or.inl (lt_of_lt_of_le h hbc)
  · rcases lt_or_eq_of_le hbc with hlt | heq
    · exact Or.inl (e ▸ hlt)
    · have h2 : b.2 ≤ c.2 := not_lt.mp (fun hh => hn (Or.inr ⟨heq.symm, hh⟩))
      exact Or.inr ⟨e.trans heq, lt_of_lt_of_le h h2⟩

/-- The selector `specBest` returns `none` only on the empty list. -/
theorem specBest_none (t : List (ℚ × ℚ × ℚ)) (h : specBest t = none) :
    t = [] := by
  cases t with
  | nil => rfl
  | cons x xs => simp [specBest] at h

/-- The record `specBest` selects is one of the records scanned. -/
theorem specBest_mem (l : List (ℚ × ℚ × ℚ)) :
    ∀ b, specBest l = some b → b ∈ l := by
  induction l with
  | nil => intro b h; cases h
  | cons x t IH =>
    intro b h
    rcases hst : specBest t with _ | c
    · have hb : b = x := by simp [specBest, hst] at h; exact h.symm
      exact hb ▸ List.mem_cons_self x t
    · have hb : b = best2 x c := by simp [specBest, hst] at h; exact h.symm
      by_cases hcx : lexLt c.2 x.2
      · have : b = c := by rw [hb]; unfold best2; rw [if_pos hcx]
        exact this ▸ List.mem_cons_of_mem x (IH c hst)
      · have : b = x := by rw [hb]; unfold best2; rw [if_neg hcx]
        exact this ▸ List.mem_cons_self x t

/-- No scanned record is lexicographically below the record `specBest`
selects. -/
theorem specBest_not_lt (l : List (ℚ × ℚ × ℚ)) :
    ∀ b, specBest l = some b → ∀ r ∈ l, ¬ lexLt r.2 b.2 := by
  induction l with
  | nil => intro b h; cases h
  | cons x t IH =>
    intro b h r hr
    rcases hst : specBest t with _ | c
    · have ht : t = [] := specBest_none t hst
      subst ht
      have hb : b = x := by simp [specBest, hst] at h; exact h.symm
      have hrx : r = x := by simpa using hr
      subst hb; subst hrx
      exact lexLt_irrefl
    · have hb : b = best2 x c := by simp [specBest, hst] at h; exact h.symm
      rcases List.mem_cons.mp hr with hrx | hrt
      · subst hrx
        by_cases hcx : lexLt c.2 r.2
        · have hbc : b = c := by rw [hb]; unfold best2; rw [if_pos hcx]
          subst hbc
          exact fun hh => lexLt_irrefl (lexLt_trans hh hcx)
        · have hbx : b = r := by rw [hb]; unfold best2; rw [if_neg hcx]
          subst hbx
          exact lexLt_irrefl
      · have hrc := IH c hst r hrt
        by_cases hcx : lexLt c.2 x.2
        · have hbc : b = c := by rw [hb]; unfold best2; rw [if_pos hcx]
          subst hbc; exact hrc
        · have hbx : b = x := by rw [hb]; unfold best2; rw [if_neg hcx]
          subst hbx
          exact fun hh => hrc (lexLt_of_lt_of_not hh hcx)

/-- The reduction loop from any seed state `(o, d, s)` is characterized
by `specBest`: if the first lexicographic minimum of the scanned records
beats the seed it wins (with its own fields as the new minima),
otherwise the seed survives. -/
theorem foldl_reduceStep_eq (l : List (ℚ × ℚ × ℚ)) :
    ∀ (o : Option ℚ) (d s : ℚ),
      l.foldl reduceStep (o, d, s) =
        match specBest l with
        | none => (o, d, s)
        | some b =>
          if lexLt b.2 (d, s) then (some b.1, b.2.1, b.2.2) else (o, d, s) := by
  induction l with
  | nil => intro o d s; rfl
  | cons r t IH =>
    intro o d s
    rw [List.foldl_cons]
    have hstep : reduceStep (o, d, s) r =
        if lexLt r.2 (d, s) then (some r.1, r.2.1, r.2.2) else (o, d, s) := rfl
    rcases hsb : specBest t with _ | b
    · have ht : t = [] := specBest_none t hsb
      subst ht
      simp only [specBest, List.foldl_nil, hstep]
    · by_cases hr : lexLt r.2 (d, s)
      · rw [hstep, if_pos hr, IH (some r.1) r.2.1 r.2.2, hsb]
        have heta : ((r.2.1, r.2.2) : ℚ × ℚ) = r.2 := rfl
        by_cases hbr : lexLt b.2 r.2
        · have hbd : lexLt b.2 (d, s) := lexLt_trans hbr hr
          simp only [specBest, hsb, best2, heta, if_pos hbr, if_pos hbd]
        · simp only [specBest, hsb, best2, heta, if_neg hbr, if_pos hr]
      · rw [hstep, if_neg hr, IH o d s, hsb]
        by_cases hbr : lexLt b.2 r.2
        · simp only [specBest, hsb, best2, if_pos hbr]
        · have hbd : ¬ lexLt b.2 (d, s) :=
            fun hh => hr (lexLt_of_not_of_lt hbr hh)
          simp only [specBest, hsb, best2, if_neg hbr, if_neg hr, if_neg hbd]

/-- C2, counterexample.  The reducer's running minima are seeded with
`f64::MAX`, and it replaces the running best only under *strict*
less-than; so for the non-empty record sequence whose single record has
`delta_ms = stdev_ms = f64::MAX`, no replacement ever happens and the
reducer returns no record at all, instead of that record. -/
theorem c2_counterexample :
    ([((1 : ℚ)/2, fMAX, fMAX)] : List (ℚ × ℚ × ℚ)) ≠ [] ∧
    reduce [((1 : ℚ)/2, fMAX, fMAX)] = none :=
  ⟨by simp, by decide⟩

/-- C2, amended.  For every sequence of records at least one of which
has `(delta_ms, stdev_ms)` lexicographically below `(f64::MAX,
f64::MAX)` (in particular any non-empty sequence of finite measurements
below the seed), the reducer returns the resolution of the first
lexicographically-minimal record: minimal `delta_ms`, ties on `delta_ms`
broken by strictly smaller `stdev_ms`, ties on both fields kept by the
earliest record in sweep order (`specBest`, whose `best2` keeps the
earlier record unless a later one is strictly smaller). -/
theorem c2_theorem (l : List (ℚ × ℚ × ℚ))
    (hne : ∃ r ∈ l, lexLt r.2 (fMAX, fMAX)) :
    ∃ b, specBest l = some b ∧ b ∈ l ∧ (∀ r ∈ l, ¬ lexLt r.2 b.2) ∧
      reduce l = some b.1 := by
  obtain ⟨r0, hr0, hlt0⟩ := hne
  rcases hsb : specBest l with _ | b
  · have ht : l = [] := specBest_none l hsb
    subst ht
    simp at hr0
  · refine ⟨b, rfl, specBest_mem l b hsb, specBest_not_lt l b hsb, ?_⟩
    have hblt : lexLt b.2 (fMAX, fMAX) :=
      lexLt_of_not_of_lt (specBest_not_lt l b hsb r0 hr0) hlt0
    unfold reduce
    rw [foldl_reduceStep_eq l none fMAX fMAX, hsb]
    simp only [if_pos hblt]

/-- Witness for C2 at the spec's scenario records
`[(0.5, 2, 0.2), (0.6, 1, 0.1), (0.7, 3, 0.3)]`: round 2 is the unique
minimum, so resolution 0.6 is selected. -/
theorem c2_witness :
    (∃ r ∈ ([(1/2, 2, 1/5), (3/5, 1, 1/10), (7/10, 3, 3/10)] :
        List (ℚ × ℚ × ℚ)), lexLt r.2 (fMAX, fMAX)) ∧
    ∃ b, specBest ([(1/2, 2, 1/5), (3/5, 1, 1/10), (7/10, 3, 3/10)] :
        List (ℚ × ℚ × ℚ)) = some b ∧
      b ∈ ([(1/2, 2, 1/5), (3/5, 1, 1/10), (7/10, 3, 3/10)] :
        List (ℚ × ℚ × ℚ)) ∧
      (∀ r ∈ ([(1/2, 2, 1/5), (3/5, 1, 1/10), (7/10, 3, 3/10)] :
        List (ℚ × ℚ × ℚ)), ¬ lexLt r.2 b.2) ∧
      reduce ([(1/2, 2, 1/5), (3/5, 1, 1/10), (7/10, 3, 3/10)] :
        List (ℚ × ℚ × ℚ)) = some b.1 :=
  ⟨by decide, c2_theorem _ (by decide)⟩

/-- C6.  `reduce` of an empty record sequence yields no optimal entry;
the program turns that into the distinct fatal `InvalidData` error
`"No valid data found in results.txt"` (a non-zero outcome,
main.rs:322-325); and whenever a resolution *is* reported it is the
resolution of one of the stored records — never a substituted default
such as zero. -/
theorem c6_theorem :
    reduce [] = none ∧
    finalizeResult [] = Except.error msgNoValid ∧
    ∀ (l : List (ℚ × ℚ × ℚ)) (r : ℚ),
      finalizeResult l = Except.ok r → ∃ d s, (r, d, s) ∈ l := by
  refine ⟨rfl, rfl, fun l r h => ?_⟩
  unfold finalizeResult at h
  rcases hr : reduce l with _ | v
  · rw [hr] at h; cases h
  · rw [hr] at h
    have hvr : v = r := by
      simpa using h
    unfold reduce at hr
    rcases reduce_foldl_mem l (none, fMAX, fMAX) with h0 | ⟨x, hx, hex⟩
    · rw [h0] at hr; cases hr
    · rw [hex] at hr
      have : x.1 = r := hvr ▸ (by simpa using hr)
      exact ⟨x.2.1, x.2.2, by rw [← this]; simpa using hx⟩

/-- Witness for C6 at the one-record store `[(0.6, 1, 0.1)]`: the
reported optimal resolution 0.6 is the resolution of a stored record. -/
theorem c6_witness :
    finalizeResult [((3 : ℚ)/5, 1, 1/10)] = Except.ok (3/5) ∧
    ∃ d s : ℚ, ((3 : ℚ)/5, d, s) ∈ ([(3/5, 1, 1/10)] : List (ℚ × ℚ × ℚ)) :=
  ⟨rfl, c6_theorem.2.2 [(3/5, 1, 1/10)] (3/5) rfl⟩

/-- Helper for C4: with the mean already set to `a` and the stdev unset,
scanning continues until the first `STDEV: `-prefixed line — if that
line is `"STDEV: 0.2200"`, the parser returns `(a, 0.22)`. -/
theorem pmGo_first_std (t : List Line) : ∀ a : ℚ,
    firstWith pStd t = some lStd22 → pmGo t (some a) none = some (a, 11/50) := by
  induction t with
  | nil => intro a h; simp [firstWith] at h
  | cons l rest IH =>
    intro a h
    by_cases hp : (pStd.isPrefixOf l : Prop)
    · have hl : l = lStd22 := by
        unfold firstWith at h
        rw [List.find?_cons_of_pos _ hp] at h
        exact Option.some.inj h
      subst hl
      have hstep : pmStep (some a) none lStd22 = (some a, some (11/50)) := by
        unfold pmStep
        rw [if_neg (by simp), if_pos ⟨rfl, by decide⟩]
        have hv : parseF64? (lStd22.drop 7) = some (11/50) := by decide
        rw [hv]
      rw [pmGo, hstep]
    · have h' : firstWith pStd rest = some lStd22 := by
        unfold firstWith at h ⊢
        rwa [List.find?_cons_of_neg _ (by simpa using hp)] at h
      have hstep : pmStep (some a) none l = (some a, none) := by
        unfold pmStep
        rw [if_neg (by simp), if_neg (by simp [hp])]
      rw [pmGo, hstep]
      exact IH a h'

/-- Helper for C4: with the stdev already set to `s` and the mean unset,
scanning continues until the first `Avg: `-prefixed line — if that line
is `"Avg: 3.1400"`, the parser returns `(3.14, s)`. -/
theorem pmGo_first_avg (t : List Line) : ∀ s : ℚ,
    firstWith pAvg t = some lAvg314 → pmGo t none (some s) = some (157/50, s) := by
  induction t with
  | nil => intro s h; simp [firstWith] at h
  | cons l rest IH =>
    intro s h
    by_cases hp : (pAvg.isPrefixOf l : Prop)
    · have hl : l = lAvg314 := by
        unfold firstWith at h
        rw [List.find?_cons_of_pos _ hp] at h
        exact Option.some.inj h
      subst hl
      have hstep : pmStep none (some s) lAvg314 = (some (157/50), some s) := by
        unfold pmStep
        rw [if_pos ⟨rfl, by decide⟩]
        have hv : parseF64? (lAvg314.drop 5) = some (157/50) := by decide
        rw [hv]
      rw [pmGo, hstep]
    · have h' : firstWith pAvg rest = some lAvg314 := by
        unfold firstWith at h ⊢
        rwa [List.find?_cons_of_neg _ (by simpa using hp)] at h
      have hstep : pmStep none (some s) l = (none, some s) := by
        unfold pmStep
        rw [if_neg (by simp [hp]), if_neg (by simp)]
      rw [pmGo, hstep]
      exact IH s h'

/-- Helper for C4: a line cannot carry both labels. -/
theorem not_avg_and_std (l : Line) (h1 : pAvg.isPrefixOf l = true)
    (h2 : pStd.isPrefixOf l = true) : False := by
  cases l with
  | nil => simp [pAvg, List.isPrefixOf] at h1
  | cons c cs =>
    have e1 : 'A' = c := by
      simp [pAvg, List.isPrefixOf] at h1
      exact h1.1
    have e2 : 'S' = c := by
      simp [pStd, List.isPrefixOf] at h2
      exact h2.1
    rw [← e1] at e2
    cases e2

/-- Helper for C4: the whole scan, when the first mean-prefixed line is
`"Avg: 3.1400"` and the first stdev-prefixed line is `"STDEV: 0.2200"`. -/
theorem pmGo_first_both (lines : List Line) :
    firstWith pAvg lines = some lAvg314 → firstWith pStd lines = some lStd22 →
    pmGo lines none none = some (157/50, 11/50) := by
  induction lines with
  | nil => intro h1 _; simp [firstWith] at h1
  | cons l rest IH =>
    intro h1 h2
    by_cases hpa : (pAvg.isPrefixOf l : Prop)
    · have hl : l = lAvg314 := by
        unfold firstWith at h1
        rw [List.find?_cons_of_pos _ hpa] at h1
        exact Option.some.inj h1
      subst hl
      have h2' : firstWith pStd rest = some lStd22 := by
        unfold firstWith at h2 ⊢
        rwa [List.find?_cons_of_neg _ (by decide)] at h2
      have hstep : pmStep none none lAvg314 = (some (157/50), none) := by decide
      rw [pmGo, hstep]
      exact pmGo_first_std rest (157/50) h2'
    · by_cases hps : (pStd.isPrefixOf l : Prop)
      · have hl : l = lStd22 := by
          unfold firstWith at h2
          rw [List.find?_cons_of_pos _ hps] at h2
          exact Option.some.inj h2
        subst hl
        have h1' : firstWith pAvg rest = some lAvg314 := by
          unfold firstWith at h1 ⊢
          rwa [List.find?_cons_of_neg _ (by decide)] at h1
        have hstep : pmStep none none lStd22 = (none, some (11/50)) := by decide
        rw [pmGo, hstep]
        exact pmGo_first_avg rest (11/50) h1'
      · have h1' : firstWith pAvg rest = some lAvg314 := by
          unfold firstWith at h1 ⊢
          rwa [List.find?_cons_of_neg _ (by simpa using hpa)] at h1
        have h2' : firstWith pStd rest = some lStd22 := by
          unfold firstWith at h2 ⊢
          rwa [List.find?_cons_of_neg _ (by simpa using hps)] at h2
        have hstep : pmStep none none l = (none, none) := by
          unfold pmStep
          rw [if_neg (by simp [hpa]), if_neg (by simp [hps])]
        rw [pmGo, hstep]
        exact IH h1' h2'

/-- C4, counterexample.  The text `["Avg: 9.0", "Avg: 3.1400",
"STDEV: 0.2200"]` contains the lines `"Avg: 3.1400"` and
`"STDEV: 0.2200"`, yet the parser returns mean 9.0 (not 3.14): the
*first* mean-prefixed line wins, so "for any text containing those two
lines the parser returns (3.14, 0.22)" fails as stated. -/
theorem c4_counterexample :
    lAvg314 ∈ cexLines ∧ lStd22 ∈ cexLines ∧
    parse_measurement_output cexLines = some (9, 11/50) ∧
    parse_measurement_output cexLines ≠ some (3.14, 0.22) := by
  refine ⟨by decide, by decide, by decide, by decide⟩

/-- C4, amended.  For any decoded text whose *first* line beginning with
the mean prefix is `"Avg: 3.1400"` and whose *first* line beginning with
the stdev prefix is `"STDEV: 0.2200"` — in either order, and with any
other lines around them — parsing succeeds with `mean_delta_ms = 3.14`
and `stdev_ms = 0.22`. -/
theorem c4_theorem (lines : List Line)
    (h1 : firstWith pAvg lines = some lAvg314)
    (h2 : firstWith pStd lines = some lStd22) :
    parse_measurement_output lines = some (3.14, 0.22) := by
  have e1 : ((3.14 : ℚ), (0.22 : ℚ)) = ((157/50 : ℚ), (11/50 : ℚ)) := by
    norm_num
  rw [e1]
  exact pmGo_first_both lines h1 h2

/-- Witness for C4 with the two labels in the reverse order: the text
`["STDEV: 0.2200", "Avg: 3.1400"]`. -/
theorem c4_witness :
    firstWith pAvg [lStd22, lAvg314] = some lAvg314 ∧
    firstWith pStd [lStd22, lAvg314] = some lStd22 ∧
    parse_measurement_output [lStd22, lAvg314] = some (3.14, 0.22) :=
  ⟨by decide, by decide, c4_theorem [lStd22, lAvg314] (by decide) (by decide)⟩

/-- Helper for C9: decoding a digit character recovers the digit. -/
theorem digit?_digitChar {d : ℕ} (h : d < 10) :
    digit? (digitChar d) = some d := by
  interval_cases d <;> decide

/-- Helper for C9: digit characters are not `'.'` (as the `takeWhile`
predicate), `'-'` or `'+'`. -/
theorem digitChar_not_special {d : ℕ} (h : d < 10) :
    (digitChar d != '.') = true ∧ digitChar d ≠ '-' ∧ digitChar d ≠ '+' := by
  interval_cases d <;> decide

/-- Helper for C9: `valList` in terms of `Nat.ofDigits`. -/
theorem valList_eq (ds : List ℕ) :
    ∀ a : ℕ, valList a ds = a * 10 ^ ds.length + Nat.ofDigits 10 ds.reverse := by
  induction ds with
  | nil => intro a; simp [valList, Nat.ofDigits]
  | cons d t IH =>
    intro a
    have h1 : valList a (d :: t) = valList (a * 10 + d) t := rfl
    rw [h1, IH (a * 10 + d)]
    rw [List.reverse_cons, Nat.ofDigits_append]
    simp [Nat.ofDigits, pow_succ]
    ring

/-- Helper for C9: folding the digit characters of a digit list. -/
theorem digitsVal?_map (ds : List ℕ) (h : ∀ d ∈ ds, d < 10) :
    ∀ a : ℕ, (ds.map digitChar).foldl dvStep (some a) = some (valList a ds) := by
  induction ds with
  | nil => intro a; rfl
  | cons d t IH =>
    intro a
    have hd : d < 10 := h d (List.mem_cons_self d t)
    have ht : ∀ x ∈ t, x < 10 := fun x hx => h x (List.mem_cons_of_mem d hx)
    have hstep : dvStep (some a) (digitChar d) = some (a * 10 + d) := by
      unfold dvStep
      rw [digit?_digitChar hd]
    rw [List.map_cons, List.foldl_cons, hstep]
    exact IH ht (a * 10 + d)

/-- Helper for C9: reading back the digit string of `k` gives `k`. -/
theorem digitsVal?_natStr (k : ℕ) : digitsVal? (natStr k) = some k := by
  by_cases hk : k = 0
  · subst hk; decide
  · unfold natStr digitsVal?
    rw [if_neg hk]
    have hlt : ∀ d ∈ (Nat.digits 10 k).reverse, d < 10 := by
      intro d hd
      exact Nat.digits_lt_base (by norm_num) (List.mem_reverse.mp hd)
    rw [digitsVal?_map _ hlt 0, valList_eq]
    simp [Nat.ofDigits_digits]

/-- Helper for C9: every character of `natStr k` is a digit character. -/
theorem natStr_chars (k : ℕ) :
    ∀ c ∈ natStr k, ∃ d, d < 10 ∧ c = digitChar d := by
  intro c hc
  unfold natStr at hc
  by_cases hk : k = 0
  · rw [if_pos hk] at hc
    have : c = '0' := by simpa using hc
    exact ⟨0, by norm_num, by rw [this]; rfl⟩
  · rw [if_neg hk] at hc
    obtain ⟨d, hd, hcd⟩ := List.mem_map.mp hc
    exact ⟨d, Nat.digits_lt_base (by norm_num) (List.mem_reverse.mp hd), hcd.symm⟩

/-- Helper for C9: `natStr` is never empty. -/
theorem natStr_ne_nil (k : ℕ) : natStr k ≠ [] := by
  unfold natStr
  by_cases hk : k = 0
  · rw [if_pos hk]; simp
  · rw [if_neg hk]
    simp [Nat.digits_ne_nil_iff_ne_zero, hk]

/-- Helper for C9: reading back a 4-padded fraction below 10000. -/
theorem digitsVal?_pad4 {r : ℕ} (h : r < 10000) :
    digitsVal? (pad4 r) = some r := by
  have h1 := digit?_digitChar (Nat.mod_lt (r / 1000) (by norm_num : (0:ℕ) < 10))
  have h2 := digit?_digitChar (Nat.mod_lt (r / 100) (by norm_num : (0:ℕ) < 10))
  have h3 := digit?_digitChar (Nat.mod_lt (r / 10) (by norm_num : (0:ℕ) < 10))
  have h4 := digit?_digitChar (Nat.mod_lt r (by norm_num : (0:ℕ) < 10))
  unfold digitsVal? pad4
  simp only [List.foldl_cons, List.foldl_nil, dvStep, h1, h2, h3, h4]
  congr 1
  omega

/-- Helper for C9: `takeWhile` over a block that satisfies the predicate
followed by a failing head. -/
theorem takeWhile_block {p : Char → Bool} (xs : List Char) (y : Char)
    (ys : List Char) (hx : ∀ x ∈ xs, p x = true) (hy : p y = false) :
    (xs ++ y :: ys).takeWhile p = xs := by
  induction xs with
  | nil => simp [List.takeWhile_cons, hy]
  | cons x t IH =>
    have hxx : p x = true := hx x (List.mem_cons_self x t)
    have ht : ∀ z ∈ t, p z = true := fun z hz => hx z (List.mem_cons_of_mem x hz)
    simp [List.takeWhile_cons, hxx, IH ht]

/-- Helper for C9: `dropWhile` over the same shape. -/
theorem dropWhile_block {p : Char → Bool} (xs : List Char) (y : Char)
    (ys : List Char) (hx : ∀ x ∈ xs, p x = true) (hy : p y = false) :
    (xs ++ y :: ys).dropWhile p = y :: ys := by
  induction xs with
  | nil => simp [List.dropWhile_cons, hy]
  | cons x t IH =>
    have hxx : p x = true := hx x (List.mem_cons_self x t)
    have ht : ∀ z ∈ t, p z = true := fun z hz => hx z (List.mem_cons_of_mem x hz)
    simp [List.dropWhile_cons, hxx, IH ht]

/-- Helper for C9: rounding a non-negative value is non-negative. -/
theorem rnEven_nonneg {m : ℚ} (h : 0 ≤ m) : 0 ≤ rnEven m := by
  unfold rnEven
  have hfl : (0 : ℤ) ≤ ⌊m⌋ := Int.floor_nonneg.mpr h
  split_ifs <;> omega

/-- Helper for C9: rounding a non-positive value is non-positive. -/
theorem rnEven_nonpos {m : ℚ} (h : m ≤ 0) : rnEven m ≤ 0 := by
  unfold rnEven
  have hfl : ⌊m⌋ ≤ 0 := Int.floor_nonpos h
  have hfr : (⌊m⌋ : ℚ) ≤ m := Int.floor_le m
  split_ifs with h1 h2 h3
  · exact hfl
  · have hq : (⌊m⌋ : ℚ) < -(1/2) := by linarith
    have : (⌊m⌋ : ℚ) < ((-1 : ℤ) : ℚ) + 1/2 := by push_cast; linarith
    have hz : ⌊m⌋ < 0 := by
      by_contra hc
      push_neg at hc
      have hcq : (0 : ℚ) ≤ (⌊m⌋ : ℚ) := by exact_mod_cast hc
      linarith
    omega
  · exact hfl
  · have heq : m - (⌊m⌋ : ℚ) = 1/2 := le_antisymm (not_lt.mp h2) (not_lt.mp h1)
    have hq : (⌊m⌋ : ℚ) ≤ -(1/2) := by linarith
    have hz : ⌊m⌋ < 0 := by
      by_contra hc
      push_neg at hc
      have hcq : (0 : ℚ) ≤ (⌊m⌋ : ℚ) := by exact_mod_cast hc
      linarith
    omega

/-- Helper for C9: parsing the unsigned body `natStr K ++ "." ++ pad4 R`
recovers `K + R/10000`. -/
theorem parseUF_body (K R : ℕ) (hR : R < 10000) :
    parseUF (natStr K ++ '.' :: pad4 R) =
      some ((K : ℚ) + (R : ℚ) / 10000) := by
  have hchars : ∀ x ∈ natStr K, ((x != '.') : Bool) = true := by
    intro x hx
    obtain ⟨d, hd, hxd⟩ := natStr_chars K x hx
    exact hxd ▸ (digitChar_not_special hd).1
  have hdot : ((('.' : Char) != '.') : Bool) = false := by decide
  have htk : (natStr K ++ '.' :: pad4 R).takeWhile (fun c => c != '.') =
      natStr K := takeWhile_block _ _ _ hchars hdot
  have hdr : (natStr K ++ '.' :: pad4 R).dropWhile (fun c => c != '.') =
      '.' :: pad4 R := dropWhile_block _ _ _ hchars hdot
  simp only [parseUF, hdr, htk, digitsVal?_natStr, digitsVal?_pad4 hR]
  rw [if_neg (by simp [pad4])]
  norm_num [pad4]

/-- Helper for C9: parsing back a `{:.4}`-formatted value yields exactly
the written value rounded to four decimals. -/
theorem parseF64?_fmt4 (q : ℚ) : parseF64? (fmt4 q) = some (r4 q) := by
  set n := rnEven (q * 10000) with hn
  set m := n.natAbs with hm
  have hmdm : 10000 * (m / 10000) + m % 10000 = m := Nat.div_add_mod m 10000
  have hR : m % 10000 < 10000 := Nat.mod_lt _ (by norm_num)
  have hUF : parseUF (natStr (m / 10000) ++ '.' :: pad4 (m % 10000)) =
      some (((m / 10000 : ℕ) : ℚ) + ((m % 10000 : ℕ) : ℚ) / 10000) :=
    parseUF_body _ _ hR
  have hval : ((m / 10000 : ℕ) : ℚ) + ((m % 10000 : ℕ) : ℚ) / 10000 =
      (m : ℚ) / 10000 := by
    have hc := congrArg (fun x : ℕ => (x : ℚ)) hmdm
    push_cast at hc
    field_simp
    linarith
  by_cases hq : q < 0
  · have hfmt : fmt4 q =
        '-' :: (natStr (m / 10000) ++ '.' :: pad4 (m % 10000)) := by
      unfold fmt4
      rw [if_pos hq, ← hn, ← hm]
      rfl
    have hqn : q * 10000 ≤ 0 :=
      mul_nonpos_of_nonpos_of_nonneg (le_of_lt hq) (by norm_num)
    have hn0 : n ≤ 0 := hn ▸ rnEven_nonpos hqn
    have hcast : ((m : ℤ) : ℚ) = -(n : ℚ) := by
      have := Int.ofNat_natAbs_of_nonpos hn0
      rw [hm]
      exact_mod_cast congrArg (fun z : ℤ => (z : ℚ)) this
    rw [hfmt]
    show (if ('-' : Char) = '-' then
        (parseUF (natStr (m / 10000) ++ '.' :: pad4 (m % 10000))).map
          (fun v => -v)
      else if ('-' : Char) = '+' then
        parseUF (natStr (m / 10000) ++ '.' :: pad4 (m % 10000))
      else parseF64? (fmt4 q)) = some (r4 q)
    rw [if_pos rfl, hUF]
    unfold r4
    rw [← hn]
    simp only [Option.map_some']
    congr 1
    push_cast at hcast
    rw [hval]
    rw [show (m : ℚ) = -(n : ℚ) from hcast]
    ring
  · have hq' : 0 ≤ q := not_lt.mp hq
    have hn0 : 0 ≤ n := hn ▸ rnEven_nonneg (mul_nonneg hq' (by norm_num))
    have hcast : ((m : ℤ) : ℚ) = (n : ℚ) := by
      rw [hm]
      exact_mod_cast congrArg (fun z : ℤ => (z : ℚ)) (Int.natAbs_of_nonneg hn0)
    have hfmt : fmt4 q = natStr (m / 10000) ++ '.' :: pad4 (m % 10000) := by
      unfold fmt4
      rw [if_neg hq, ← hn, ← hm]
      rfl
    obtain ⟨c0, t0, hsplit⟩ : ∃ c0 t0, natStr (m / 10000) = c0 :: t0 := by
      rcases hns : natStr (m / 10000) with _ | ⟨c0, t0⟩
      · exact absurd hns (natStr_ne_nil _)
      · exact ⟨c0, t0, rfl⟩
    obtain ⟨d, hd10, hc0⟩ :=
      natStr_chars _ c0 (hsplit ▸ List.mem_cons_self c0 t0)
    have hne1 : c0 ≠ '-' := hc0 ▸ (digitChar_not_special hd10).2.1
    have hne2 : c0 ≠ '+' := hc0 ▸ (digitChar_not_special hd10).2.2
    have hbody : fmt4 q = c0 :: (t0 ++ '.' :: pad4 (m % 10000)) := by
      rw [hfmt, hsplit]
      rfl
    rw [hbody]
    show (if c0 = '-' then
        (parseUF (t0 ++ '.' :: pad4 (m % 10000))).map (fun v => -v)
      else if c0 = '+' then parseUF (t0 ++ '.' :: pad4 (m % 10000))
      else parseUF (c0 :: (t0 ++ '.' :: pad4 (m % 10000)))) = some (r4 q)
    rw [if_neg hne1, if_neg hne2]
    rw [show c0 :: (t0 ++ '.' :: pad4 (m % 10000)) =
        natStr (m / 10000) ++ '.' :: pad4 (m % 10000) from by rw [hsplit]; rfl]
    rw [hUF]
    unfold r4
    rw [← hn]
    congr 1
    rw [hval]
    push_cast at hcast
    rw [hcast]

/-- Helper for C9: rounding an integer to four decimals leaves it. -/
theorem rnEven_intCast (z : ℤ) : rnEven ((z : ℚ)) = z := by
  unfold rnEven
  rw [Int.floor_intCast]
  norm_num

/-- Helper for C9: `r4` is idempotent. -/
theorem r4_idem (q : ℚ) : r4 (r4 q) = r4 q := by
  unfold r4
  have h1 : ((rnEven (q * 10000) : ℚ) / 10000) * 10000 =
      (rnEven (q * 10000) : ℚ) := div_mul_cancel₀ _ (by norm_num)
  rw [h1, rnEven_intCast]

/-- Helper for C9: one written row parses back as the rounded record. -/
theorem readRow_writeRow (r : ℚ × ℚ × ℚ) :
    readRow (writeRow r) = some (r4 r.1, r4 r.2.1, r4 r.2.2) := by
  simp [writeRow, readRow, parseF64?_fmt4]

/-- C9.  Round-trip through the results store: writing records as rows
of three `{:.4}`-formatted fields and reading the file back row by row
yields, in the same order, exactly the written values rounded to 4
decimal places — and rounding to 4 decimals is idempotent, so the
values read agree with the written ones to 4 decimal places. -/
theorem c9_theorem :
    (∀ recs : List (ℚ × ℚ × ℚ),
      read_all (write_all recs) =
        recs.map (fun r => (r4 r.1, r4 r.2.1, r4 r.2.2))) ∧
    (∀ q : ℚ, r4 (r4 q) = r4 q) := by
  refine ⟨fun recs => ?_, r4_idem⟩
  induction recs with
  | nil => rfl
  | cons r t IH =>
    simp only [write_all, List.map_cons, read_all, List.filterMap_cons,
      readRow_writeRow]
    simp only [read_all, write_all] at IH
    rw [IH]

/-- Helper for C10: with the zero increment injected by the prompt, the
cursor never moves (`0.5 + 0.0 = 0.5` in binary64) and never exceeds
`end = 0.7`, so for every iteration bound the loop is still live. -/
theorem sweepGo_zero_inc_stuck :
    ∀ (fuel k : ℕ), (sweepGo pZero envAllOk fuel (dbl (1/2)) k).fuelOut = true := by
  intro fuel
  induction fuel with
  | zero =>
    intro k
    have hle : dbl (1/2) ≤ pZero.end_value := by decide
    rw [sweepGo, if_pos hle]
  | succ n IH =>
    intro k
    have hle : dbl (1/2) ≤ pZero.end_value := by decide
    have henv : envAllOk k = ⟨true, some goodOut⟩ := rfl
    have hrr : runRound (dbl (1/2)) ⟨true, some goodOut⟩ =
        ⟨5000, none, some (dbl (1/2), 1, 1/10), true⟩ := by decide
    have hadd : fadd (dbl (1/2)) pZero.increment_value = dbl (1/2) := by decide
    show (sweepGo pZero envAllOk (n + 1) (dbl (1/2)) k).fuelOut = true
    rw [sweepGo, if_pos hle, henv, hrr]
    simpa [hadd] using IH (k + 1)

/-- C10.  The positivity requirement on the four configuration fields is
enforced only by the deserializer (`validate_positive_f64` /
`validate_positive_i32`, main.rs:36-58): (i) every configuration it
accepts has a positive increment, and (ii) it rejects a zero increment.
(iii) The interactive prompt (main.rs:140-151) replaces a field after a
plain numeric parse with no positivity re-check, so typing `"0"` at the
increment prompt yields parameters with `increment_value ≤ 0`, (iv)
under which (`start = 0.5 ≤ 0.7 = end`) the sweep loop never
terminates: for every iteration bound the loop is still live. -/
theorem c10_theorem :
    (∀ (s i e : ℚ) (n : ℤ) (p : BenchmarkingParameters),
      parseConfig s i e n = some p → 0 < p.increment_value) ∧
    parseConfig (1/2) 0 (7/10) 100 = none ∧
    applyPrompt pScenario none (some lZero) none none = some pZero ∧
    pZero.increment_value ≤ 0 ∧
    (∀ fuel : ℕ, (sweep fuel pZero envAllOk).fuelOut = true) := by
  refine ⟨?_, by decide, by decide, by decide, ?_⟩
  · intro s i e n p h
    unfold parseConfig at h
    split_ifs at h with hc
    cases h; exact hc.2.1
  · intro fuel
    exact sweepGo_zero_inc_stuck fuel 0

/-- Witness for C10 at the concrete configuration
`{0.5, 0.1, 0.7, 100}`: the deserializer accepts it and its increment is
positive. -/
theorem c10_witness :
    parseConfig (1/2) (1/10) (7/10) 100 = some pScenario ∧
    0 < pScenario.increment_value :=
  ⟨by decide, c10_theorem.1 (1/2) (1/10) (7/10) 100 pScenario (by decide)⟩

end TRB
